import Mathlib

/-!
Verification of the Wyoming sounding extraction-and-normalization pipeline
(`wyoming_sounding_downloader_2025_11_25_v02_LB.py`).

Strings are modelled as `List Char`; every Python string primitive the core
uses (`find`, `replace`, `split`, `strip`, `rstrip`, `join`, slicing) is
embedded explicitly below, and the four core functions `extract_block`,
`normalize_lines`, `parse_profiles`, `extract_station_name` are translated
line by line from the source.
-/

set_option maxRecDepth 100000

abbrev Str := List Char

/-- Whitespace predicate used by Python's argument-less `str.split()` and
`str.strip()`, restricted to the ASCII whitespace characters. -/
def isWS (c : Char) : Bool :=
  c = ' ' || c = '\t' || c = '\n' || c = '\r' || c = '\x0b' || c = '\x0c'

/-- Model of Python `s.strip()`: drop whitespace from both ends. -/
def pyStrip (s : Str) : Str :=
  ((s.dropWhile isWS).reverse.dropWhile isWS).reverse

/-- Model of Python `s.rstrip("\n")`: drop trailing newline characters. -/
def rstripNl (s : Str) : Str :=
  (s.reverse.dropWhile (fun c => c = '\n')).reverse

/-- A line is blank when `line.strip()` is empty (Python falsy string). -/
def isBlankLine (l : Str) : Bool :=
  pyStrip l = ([] : Str)

/-- `matchesAt pat s` holds when `pat` occurs at the very start of `s`
(the check Python's substring search performs at each candidate offset). -/
def matchesAt (pat s : Str) : Bool :=
  s.take pat.length = pat

/-- Model of Python `s.find(pat)` for nonempty `pat`: index of the first
occurrence, `none` when absent. -/
def findSub (pat : Str) : Str → Option Nat
  | [] => if matchesAt pat [] then some 0 else none
  | c :: rest =>
    if matchesAt pat (c :: rest) then some 0
    else (findSub pat rest).map (· + 1)

/-- Model of Python `s.find(pat, start)`. -/
def findSubFrom (pat s : Str) (start : Nat) : Option Nat :=
  (findSub pat (s.drop start)).map (· + start)

/-- Python slice `s[a:b]`. -/
def sliceStr (s : Str) (a b : Nat) : Str :=
  (s.drop a).take (b - a)

/-- Model of Python `s.replace("\r\n", "\n")`: non-overlapping left-to-right
replacement of the two-character sequence CR LF by LF. -/
def replaceCrlf : Str → Str
  | [] => []
  | '\r' :: '\n' :: rest => '\n' :: replaceCrlf rest
  | c :: rest => c :: replaceCrlf rest

/-- Model of Python `s.replace("\r", "\n")`. -/
def replaceCr : Str → Str
  | [] => []
  | '\r' :: rest => '\n' :: replaceCr rest
  | c :: rest => c :: replaceCr rest

/-- `raw_html.replace("\r\n", "\n").replace("\r", "\n")` from `extract_block`. -/
def normalizeNewlines (s : Str) : Str :=
  replaceCr (replaceCrlf s)

/-- Model of Python `s.split("\n")`. -/
def splitNl : Str → List Str
  | [] => [[]]
  | c :: rest =>
    if c = '\n' then [] :: splitNl rest
    else
      match splitNl rest with
      | [] => [[c]]
      | l :: ls => (c :: l) :: ls

/-- Model of Python `sep.join(parts)`. -/
def pyJoin (sep : Str) : List Str → Str
  | [] => []
  | [t] => t
  | t :: u :: ts => t ++ sep ++ pyJoin sep (u :: ts)

/-- Accumulator-based tokenizer behind `pySplit`; `acc` holds the current
token reversed. -/
def pySplitAux (acc : Str) : Str → List Str
  | [] => if acc = ([] : Str) then [] else [acc.reverse]
  | c :: rest =>
    if isWS c then
      if acc = ([] : Str) then pySplitAux [] rest
      else acc.reverse :: pySplitAux [] rest
    else pySplitAux (c :: acc) rest

/-- Model of Python's argument-less `s.split()`: split on maximal runs of
whitespace, never producing empty tokens. -/
def pySplit (s : Str) : List Str :=
  pySplitAux [] s

/-- The two `while` loops of `extract_block` that pop blank lines from the
front and the back of the line list. -/
def trimBlankEdges (ls : List Str) : List Str :=
  ((ls.dropWhile isBlankLine).reverse.dropWhile isBlankLine).reverse

/-- The fixed border line of the Wyoming header block (77 dashes). -/
def BORDER : Str := List.replicate 77 '-'

/-- Column-name line of the three-line Wyoming header marker. -/
def COLS_LINE : Str :=
  ("   PRES   HGHT   TEMP   DWPT   RELH   MIXR   DRCT   SKNT   THTA   THTE   THTV").data

/-- Unit-name line of the three-line Wyoming header marker (note the
trailing space, exactly as in the source). -/
def UNITS_LINE : Str :=
  ("    hPa     m      C      C      %    g/kg    deg   knot     K      K      K ").data

/-- `START_MARKER` from the source: border, column names, units, border,
joined with newlines. -/
def START_MARKER : Str :=
  BORDER ++ '\n' :: COLS_LINE ++ '\n' :: UNITS_LINE ++ '\n' :: BORDER

/-- `END_MARKER` from the source. -/
def END_MARKER : Str :=
  ("</PRE><H3>Station information and sounding indices</H3><PRE>").data

/-- The two failure modes of `extract_block` (the source raises
`RuntimeError("Could not find the full Wyoming header block.")` and
`RuntimeError("Could not find the station information section end marker.")`;
the spec calls them `FormatError("header marker not found")` and
`FormatError("end marker not found")`). -/
inductive FormatError where
  | headerNotFound
  | endNotFound
deriving DecidableEq, Repr

deriving instance DecidableEq for Except

/-- Body of `extract_block` after line-ending normalization. -/
def extractFromText (text : Str) : Except FormatError (List Str) :=
  match findSub START_MARKER text with
  | none => Except.error FormatError.headerNotFound
  | some start_idx =>
    match findSubFrom END_MARKER text (start_idx + START_MARKER.length) with
    | none => Except.error FormatError.endNotFound
    | some end_idx =>
      Except.ok (trimBlankEdges
        (splitNl (sliceStr text (start_idx + START_MARKER.length) end_idx)))

/-- `extract_block` from the source: normalize line endings, locate the
three-line header marker, locate the end marker after it, slice the text in
between, split on newlines and trim blank edge lines. -/
def extract_block (raw_html : Str) : Except FormatError (List Str) :=
  extractFromText (normalizeNewlines raw_html)

/-- Characters the sanitizer keeps: the regex class `[A-Za-z0-9_\-]`. -/
def isAllowed (c : Char) : Bool :=
  c.isAlpha || c.isDigit || c = '_' || c = '-'

/-- Worker behind `subDisallowed`; `inRun` records whether the previous
character already belonged to a run of disallowed characters (whose single
replacement underscore has then already been emitted). -/
def subDisallowedAux (inRun : Bool) : Str → Str
  | [] => []
  | c :: rest =>
    if isAllowed c then c :: subDisallowedAux false rest
    else if inRun then subDisallowedAux true rest
    else '_' :: subDisallowedAux true rest

/-- Model of `re.sub(r"[^A-Za-z0-9_\-]+", "_", s)`: every maximal run of
disallowed characters becomes a single underscore. -/
def subDisallowed (s : Str) : Str :=
  subDisallowedAux false s

/-- Model of Python `s.strip("_")`. -/
def stripUnderscores (s : Str) : Str :=
  ((s.dropWhile (fun c => c = '_')).reverse.dropWhile (fun c => c = '_')).reverse

/-- The final sanitization step of `extract_station_name`:
`name = re.sub(...); name = name.strip("_") or station_id`. -/
def sanitizeName (raw fallback : Str) : Str :=
  let n := stripUnderscores (subDisallowed raw)
  if n = ([] : Str) then fallback else n

/-- Model of Python `html.unescape` restricted to the five XML named
entities; all other text passes through unchanged (the headings the claims
exercise contain no entities). -/
def htmlUnescape : Str → Str
  | [] => []
  | '&' :: 'a' :: 'm' :: 'p' :: ';' :: rest => '&' :: htmlUnescape rest
  | '&' :: 'l' :: 't' :: ';' :: rest => '<' :: htmlUnescape rest
  | '&' :: 'g' :: 't' :: ';' :: rest => '>' :: htmlUnescape rest
  | '&' :: 'q' :: 'u' :: 'o' :: 't' :: ';' :: rest => '"' :: htmlUnescape rest
  | '&' :: '#' :: '3' :: '9' :: ';' :: rest => '\'' :: htmlUnescape rest
  | c :: rest => c :: htmlUnescape rest

/-- The token `"Observations"` searched for in the heading. -/
def OBS_TOKEN : Str := ("Observations").data

/-- Name computation from the inner text of the heading element
(the `if start_idx != -1 and end_idx != -1` branch of
`extract_station_name`, before sanitization). -/
def nameFromHeading (seg : Str) : Str :=
  let header := pyStrip (htmlUnescape seg)
  let tokens := pySplit header
  let obs_idx := tokens.findIdx (fun t => t = OBS_TOKEN)
  if tokens.length ≥ 3 then
    let name_tokens := if obs_idx > 2 then (tokens.take obs_idx).drop 2 else tokens.drop 2
    if name_tokens = ([] : List Str) then header else pyJoin ['_'] name_tokens
  else header

/-- `extract_station_name` from the source: find `<H2>…</H2>` (or, failing
that, `<h2>…</h2>`), derive a raw name from the heading text or fall back to
the station id, then sanitize. -/
def extract_station_name (raw_html : Str) (station_id : Str) : Str :=
  let raw_name :=
    match findSub ("<H2>").data raw_html with
    | some s =>
      match findSubFrom ("</H2>").data raw_html (s + 4) with
      | some e => nameFromHeading (sliceStr raw_html (s + 4) e)
      | none => station_id
    | none =>
      match findSub ("<h2>").data raw_html with
      | some s =>
        match findSubFrom ("</h2>").data raw_html (s + 4) with
        | some e => nameFromHeading (sliceStr raw_html (s + 4) e)
        | none => station_id
      | none => station_id
  sanitizeName raw_name station_id

/-- Per-line transform of `normalize_lines`: `None` for a blank line
(`continue` in the source), otherwise the whitespace-split tokens rejoined
with the separator. -/
def normLineOut (sep : Str) (line : Str) : Option Str :=
  let stripped := rstripNl line
  if isBlankLine stripped then none
  else some (pyJoin sep (pySplit stripped))

/-- `normalize_lines` from the source: rewrite each non-blank line as its
whitespace-delimited tokens joined by `sep`, join the resulting lines with
newlines, and append one trailing newline. -/
def normalize_lines (lines : List Str) (sep : Str) : Str :=
  pyJoin ['\n'] (lines.filterMap (normLineOut sep)) ++ ['\n']

/-! ### Tokenizer and strip lemmas -/

/-- What it means for `r` to be `L` with leading and trailing blank lines
trimmed: `r` is a contiguous segment of `L`, everything removed on either
side is blank, and `r` itself starts and ends with non-blank lines. -/
def TrimSpec (L r : List Str) : Prop :=
  ∃ p q, L = p ++ r ++ q
    ∧ (∀ l ∈ p, isBlankLine l = true)
    ∧ (∀ l ∈ q, isBlankLine l = true)
    ∧ (∀ a, r.head? = some a → isBlankLine a = false)
    ∧ (∀ a, r.getLast? = some a → isBlankLine a = false)

/-- Re-encode an LF-normal text with the given line terminator. -/
def encodeNl (nl : Str) : Str → Str
  | [] => []
  | c :: rest => (if c = '\n' then nl else [c]) ++ encodeNl nl rest

/-! ### Profile parser -/

/-- Result of Python's built-in `float()` conversion. A finite value is
stored exactly as `mant × 10 ^ exp10` (signed decimal mantissa and
power-of-ten exponent), which represents every decimal literal's exact value;
the claims never depend on binary rounding. -/
inductive PyFloat where
  | finite (mant : ℤ) (exp10 : ℤ)
  | infty (neg : Bool)
  | nan
deriving DecidableEq, Repr

/-- Numeric value of a digit string. -/
def digitsVal (ds : Str) : Nat :=
  ds.foldl (fun n c => 10 * n + (c.toNat - 48)) 0

/-- Finite-literal part of Python `float()`: `[digits][.digits][e[±]digits]`
with at least one mantissa digit and nothing left over; yields the unsigned
mantissa digits' value and the effective power-of-ten exponent. -/
def parseDecimal? (u : Str) : Option (ℕ × ℤ) :=
  let ip := u.takeWhile Char.isDigit
  let r1 := u.dropWhile Char.isDigit
  let fpr : Str × Str :=
    match r1 with
    | '.' :: r => (r.takeWhile Char.isDigit, r.dropWhile Char.isDigit)
    | _ => ([], r1)
  let fp := fpr.1
  let r2 := fpr.2
  if ip = ([] : Str) ∧ fp = ([] : Str) then none
  else
    let mant := digitsVal (ip ++ fp)
    match r2 with
    | [] => some (mant, -(fp.length : ℤ))
    | e :: r3 =>
      if e = 'e' ∨ e = 'E' then
        let sr : Bool × Str :=
          match r3 with
          | '+' :: r => (false, r)
          | '-' :: r => (true, r)
          | _ => (false, r3)
        let ed := sr.2.takeWhile Char.isDigit
        if ed = ([] : Str) ∨ sr.2.dropWhile Char.isDigit ≠ ([] : Str) then none
        else
          some (mant,
            (if sr.1 then -(digitsVal ed : ℤ) else (digitsVal ed : ℤ)) - (fp.length : ℤ))
      else none

/-- Model of Python `float(token)`: strip whitespace, take an optional sign,
accept `inf`/`infinity`/`nan` case-insensitively, otherwise a decimal
literal; `none` when the conversion raises `ValueError` (e.g. on the
missing-data placeholder `/////`). -/
def pyFloat? (s : Str) : Option PyFloat :=
  let t := pyStrip s
  let signed : Bool × Str :=
    match t with
    | '+' :: r => (false, r)
    | '-' :: r => (true, r)
    | _ => (false, t)
  let low := signed.2.map Char.toLower
  if low = ("inf").data ∨ low = ("infinity").data then some (PyFloat.infty signed.1)
  else if low = ("nan").data then some PyFloat.nan
  else
    match parseDecimal? signed.2 with
    | some (m, e10) =>
      some (PyFloat.finite (if signed.1 then -(m : ℤ) else (m : ℤ)) e10)
    | none => none

/-- One iteration of the `parse_profiles` loop: strip, skip blank lines,
split, skip lines with fewer than three tokens, convert the first three
tokens, and append either all three values or nothing. -/
def parseStep (acc : List PyFloat × List PyFloat × List PyFloat) (line : Str) :
    List PyFloat × List PyFloat × List PyFloat :=
  if pyStrip line = ([] : Str) then acc
  else if (pySplit (pyStrip line)).length < 3 then acc
  else
    match pySplit (pyStrip line) with
    | p0 :: p1 :: p2 :: _ =>
      match pyFloat? p0, pyFloat? p1, pyFloat? p2 with
      | some p, some z, some T => (acc.1 ++ [p], acc.2.1 ++ [z], acc.2.2 ++ [T])
      | _, _, _ => acc
    | _ => acc

/-- `parse_profiles` from the source: fold `parseStep` over the lines,
accumulating the three parallel sequences. -/
def parse_profiles (lines : List Str) : List PyFloat × List PyFloat × List PyFloat :=
  lines.foldl parseStep ([], [], [])

/-- Declarative per-line result: `some (p, z, T)` exactly when the line has
at least three whitespace-delimited tokens whose first three all convert. -/
def lineTriple? (line : Str) : Option (PyFloat × PyFloat × PyFloat) :=
  match pySplit (pyStrip line) with
  | p0 :: p1 :: p2 :: _ =>
    match pyFloat? p0, pyFloat? p1, pyFloat? p2 with
    | some p, some z, some T => some (p, z, T)
    | _, _, _ => none
  | _ => none

theorem pySplitAux_ne_nil (s : Str) : ∀ acc : Str, acc ≠ [] → pySplitAux acc s ≠ [] := by
  induction s with
  | nil => intro acc h; simpa [pySplitAux] using h
  | cons c rest ih =>
    intro acc h
    by_cases hc : isWS c = true
    · simp [pySplitAux, hc, h]
    · simp only [pySplitAux, Bool.not_eq_true] at hc ⊢
      rw [hc]
      exact ih (c :: acc) (by simp)

theorem pySplitAux_nil_eq_nil_iff (s : Str) :
    pySplitAux [] s = [] ↔ ∀ c ∈ s, isWS c = true := by
  induction s with
  | nil => simp [pySplitAux]
  | cons c rest ih =>
    by_cases hc : isWS c = true
    · simp [pySplitAux, hc, ih]
    · simp only [Bool.not_eq_true] at hc
      have h1 : pySplitAux [] (c :: rest) = pySplitAux [c] rest := by
        simp [pySplitAux, hc]
      rw [h1]
      constructor
      · intro h
        exact absurd h (pySplitAux_ne_nil rest [c] (by simp))
      · intro h
        exact absurd (h c (by simp)) (by simp [hc])

theorem pySplit_eq_nil_iff (s : Str) : pySplit s = [] ↔ ∀ c ∈ s, isWS c = true :=
  pySplitAux_nil_eq_nil_iff s

theorem pyStrip_eq_nil_iff (s : Str) : pyStrip s = [] ↔ ∀ c ∈ s, isWS c = true := by
  unfold pyStrip
  rw [List.reverse_eq_nil_iff, List.dropWhile_eq_nil_iff]
  constructor
  · intro h c hc
    have hc' : c ∈ s.takeWhile isWS ++ s.dropWhile isWS := by
      rw [List.takeWhile_append_dropWhile]; exact hc
    rcases List.mem_append.mp hc' with h1 | h1
    · exact List.mem_takeWhile_imp h1
    · exact h c (by simpa using h1)
  · intro h c hc
    exact h c ((List.dropWhile_sublist (p := isWS) (l := s)).mem (by simpa using hc))

theorem isBlankLine_iff_all_ws (s : Str) :
    isBlankLine s = true ↔ ∀ c ∈ s, isWS c = true := by
  unfold isBlankLine
  rw [decide_eq_true_iff]
  exact pyStrip_eq_nil_iff s

theorem isBlankLine_iff_split_nil (s : Str) :
    isBlankLine s = true ↔ pySplit s = [] :=
  (isBlankLine_iff_all_ws s).trans (pySplit_eq_nil_iff s).symm

theorem pySplitAux_all_ws (t : Str) (ht : ∀ c ∈ t, isWS c = true) (acc : Str) :
    pySplitAux acc t = pySplitAux acc [] := by
  induction t generalizing acc with
  | nil => rfl
  | cons c t' ih =>
    have hc : isWS c = true := ht c (by simp)
    have ht' : ∀ c ∈ t', isWS c = true := fun c hx => ht c (by simp [hx])
    have hnil : pySplitAux [] t' = [] := by rw [ih ht' []]; rfl
    by_cases hacc : acc = ([] : Str)
    · subst hacc
      simp [pySplitAux, hc, hnil]
    · simp [pySplitAux, hc, hacc, hnil]

theorem pySplitAux_append_ws (s t : Str) (ht : ∀ c ∈ t, isWS c = true) :
    ∀ acc : Str, pySplitAux acc (s ++ t) = pySplitAux acc s := by
  induction s with
  | nil => intro acc; simpa using pySplitAux_all_ws t ht acc
  | cons c s' ih =>
    intro acc
    by_cases hc : isWS c = true
    · by_cases hacc : acc = ([] : Str)
      · simp [pySplitAux, hc, hacc, ih]
      · simp [pySplitAux, hc, hacc, ih]
    · simp only [Bool.not_eq_true] at hc
      simp [pySplitAux, hc, ih]

theorem rstripNl_decomp (l : Str) :
    ∃ t, l = rstripNl l ++ t ∧ ∀ c ∈ t, c = '\n' := by
  refine ⟨(l.reverse.takeWhile (fun c => c = '\n')).reverse, ?_, ?_⟩
  · unfold rstripNl
    conv_lhs => rw [← l.reverse_reverse,
      ← List.takeWhile_append_dropWhile (p := fun c => decide (c = '\n')) (l := l.reverse)]
    rw [List.reverse_append]
  · intro c hc
    have := List.mem_takeWhile_imp (by simpa using hc)
    simpa using this

theorem pySplit_rstripNl (l : Str) : pySplit (rstripNl l) = pySplit l := by
  obtain ⟨t, hl, ht⟩ := rstripNl_decomp l
  conv_rhs => rw [hl]
  unfold pySplit
  rw [pySplitAux_append_ws _ t (fun c hc => by simp [ht c hc, isWS])]

theorem isBlankLine_rstripNl (l : Str) : isBlankLine (rstripNl l) = isBlankLine l := by
  rw [Bool.eq_iff_iff, isBlankLine_iff_split_nil, isBlankLine_iff_split_nil, pySplit_rstripNl]

/-- C3: for every line list and separator, `normalize_lines` emits, for each
line with at least one whitespace-delimited token, exactly one output line
holding those tokens in order joined by the separator; token-free lines emit
nothing; the output lines are joined with single newlines and one trailing
newline is appended. -/
theorem normalize_lines_spec (lines : List Str) (sep : Str) :
    normalize_lines lines sep =
      pyJoin ['\n'] (lines.filterMap (fun l =>
        match pySplit l with
        | [] => none
        | ts => some (pyJoin sep ts))) ++ ['\n'] := by
  unfold normalize_lines
  have : lines.filterMap (normLineOut sep) = lines.filterMap (fun l =>
      match pySplit l with
      | [] => none
      | ts => some (pyJoin sep ts)) := by
    apply List.filterMap_congr
    intro l _
    unfold normLineOut
    rcases h : pySplit l with _ | ⟨t, ts⟩
    · have hb : isBlankLine (rstripNl l) = true := by
        rw [isBlankLine_iff_split_nil, pySplit_rstripNl]; exact h
      simp [hb]
    · have hb : isBlankLine (rstripNl l) = false := by
        rw [Bool.eq_false_iff]
        intro hx
        rw [isBlankLine_iff_split_nil, pySplit_rstripNl, h] at hx
        cases hx
      simp [hb, pySplit_rstripNl, h]
  rw [this]

/-- C10: a line list with no tokenizable line (in particular the empty list)
normalizes to the single-character text consisting of one newline; moreover
the normalized text is never empty and always ends in a newline. -/
theorem normalize_lines_all_blank (lines : List Str) (sep : Str) :
    ((∀ l ∈ lines, isBlankLine l = true) → normalize_lines lines sep = ['\n'])
    ∧ normalize_lines lines sep ≠ []
    ∧ (normalize_lines lines sep).getLast? = some '\n' := by
  refine ⟨?_, ?_, ?_⟩
  · intro h
    unfold normalize_lines
    have : lines.filterMap (normLineOut sep) = [] := by
      rw [List.filterMap_eq_nil_iff]
      intro l hl
      unfold normLineOut
      have : isBlankLine (rstripNl l) = true := by
        rw [isBlankLine_rstripNl]; exact h l hl
      simp [this]
    rw [this]
    rfl
  · unfold normalize_lines
    intro h
    exact absurd (congrArg List.length h) (by simp)
  · unfold normalize_lines
    exact List.getLast?_concat _

/-! ### Substring search and blank-edge trimming -/

theorem findSub_eq_none_iff (pat s : Str) :
    findSub pat s = none ↔ ∀ k, matchesAt pat (s.drop k) = false := by
  induction s with
  | nil =>
    constructor
    · intro h k
      rw [List.drop_nil]
      by_cases hm : matchesAt pat ([] : Str) = true
      · rw [findSub, if_pos hm] at h; cases h
      · simpa using hm
    · intro h
      rw [findSub, if_neg (by simpa using h 0)]
  | cons c rest ih =>
    by_cases hm : matchesAt pat (c :: rest) = true
    · have hL : findSub pat (c :: rest) = some 0 := by rw [findSub, if_pos hm]
      constructor
      · intro h; rw [hL] at h; cases h
      · intro h; exact absurd (h 0) (by simp [hm])
    · have hm' : matchesAt pat (c :: rest) = false := by simpa using hm
      have hL : findSub pat (c :: rest) = (findSub pat rest).map (· + 1) := by
        rw [findSub, if_neg hm]
      rw [hL]
      constructor
      · intro h k
        have hrest : findSub pat rest = none := by
          rcases hr : findSub pat rest with _ | v
          · rfl
          · rw [hr] at h; cases h
        cases k with
        | zero => simpa using hm'
        | succ k' => simpa using (ih.mp hrest) k'
      · intro h
        have : findSub pat rest = none := ih.mpr (fun k => by simpa using h (k + 1))
        rw [this]; rfl

theorem findSubFrom_eq_none_iff (pat s : Str) (st : Nat) :
    findSubFrom pat s st = none ↔
      ∀ k, st ≤ k → matchesAt pat (s.drop k) = false := by
  unfold findSubFrom
  rw [Option.map_eq_none', findSub_eq_none_iff]
  constructor
  · intro h k hk
    have := h (k - st)
    rwa [List.drop_drop, Nat.add_sub_cancel' hk] at this
  · intro h k
    rw [List.drop_drop]
    exact h (st + k) (Nat.le_add_right st k)

theorem head?_dropWhile_false {α : Type} (p : α → Bool) (l : List α) (a : α)
    (h : (l.dropWhile p).head? = some a) : p a = false := by
  induction l with
  | nil => cases h
  | cons c rest ih =>
    rw [List.dropWhile_cons] at h
    by_cases hc : p c = true
    · rw [if_pos hc] at h; exact ih h
    · rw [if_neg hc] at h
      cases h
      simpa using hc

theorem trimBlankEdges_spec (L : List Str) : TrimSpec L (trimBlankEdges L) := by
  have hm : L = L.takeWhile isBlankLine ++ L.dropWhile isBlankLine :=
    (List.takeWhile_append_dropWhile (p := isBlankLine) (l := L)).symm
  have hsplit : L.dropWhile isBlankLine =
      trimBlankEdges L ++ ((L.dropWhile isBlankLine).reverse.takeWhile isBlankLine).reverse := by
    unfold trimBlankEdges
    conv_lhs => rw [← (L.dropWhile isBlankLine).reverse_reverse,
      ← List.takeWhile_append_dropWhile (p := isBlankLine)
        (l := (L.dropWhile isBlankLine).reverse)]
    rw [List.reverse_append]
  refine ⟨L.takeWhile isBlankLine,
    ((L.dropWhile isBlankLine).reverse.takeWhile isBlankLine).reverse, ?_, ?_, ?_, ?_, ?_⟩
  · conv_lhs => rw [hm, hsplit]
    rw [List.append_assoc]
  · intro l hl; exact List.mem_takeWhile_imp hl
  · intro l hl
    exact List.mem_takeWhile_imp (by simpa using hl)
  · intro a ha
    have hr : (trimBlankEdges L).head? = some a := ha
    have hmh : (L.dropWhile isBlankLine).head? = some a := by
      rw [hsplit]
      rcases he : trimBlankEdges L with _ | ⟨x, xs⟩
      · rw [he] at hr; cases hr
      · rw [he] at hr
        simpa using hr
    exact head?_dropWhile_false isBlankLine L a hmh
  · intro a ha
    have hrev : (trimBlankEdges L).reverse =
        (L.dropWhile isBlankLine).reverse.dropWhile isBlankLine := by
      unfold trimBlankEdges
      rw [List.reverse_reverse]
    have : ((L.dropWhile isBlankLine).reverse.dropWhile isBlankLine).head? = some a := by
      rw [← hrev, List.head?_reverse]
      exact ha
    exact head?_dropWhile_false isBlankLine _ a this

/-- C1: whenever the header marker is found in the normalized document and
the end marker is found after it, `extract_block` succeeds with exactly the
lines strictly between the markers, in original order, with leading and
trailing blank lines removed and interior blank lines kept verbatim. -/
theorem extract_block_success_spec (doc : Str) (i j : Nat)
    (hi : findSub START_MARKER (normalizeNewlines doc) = some i)
    (hj : findSubFrom END_MARKER (normalizeNewlines doc) (i + START_MARKER.length) = some j) :
    extract_block doc = Except.ok (trimBlankEdges (splitNl
      (sliceStr (normalizeNewlines doc) (i + START_MARKER.length) j)))
    ∧ TrimSpec (splitNl (sliceStr (normalizeNewlines doc) (i + START_MARKER.length) j))
        (trimBlankEdges (splitNl (sliceStr (normalizeNewlines doc) (i + START_MARKER.length) j))) := by
  refine ⟨?_, trimBlankEdges_spec _⟩
  simp only [extract_block, extractFromText, hi, hj]

/-- C1 witness: a concrete document whose data region is
`"\n\n1 2\n\n"` — the two data-side blank lines are trimmed and the single
data line survives. -/
theorem extract_block_success_witness :
    findSub START_MARKER (normalizeNewlines (START_MARKER ++
        ('\n' :: '\n' :: ("1 2").data ++ ['\n', '\n']) ++ END_MARKER)) = some 0
    ∧ findSubFrom END_MARKER (normalizeNewlines (START_MARKER ++
        ('\n' :: '\n' :: ("1 2").data ++ ['\n', '\n']) ++ END_MARKER))
        (0 + START_MARKER.length) = some (START_MARKER.length + 7)
    ∧ extract_block (START_MARKER ++ ('\n' :: '\n' :: ("1 2").data ++ ['\n', '\n']) ++ END_MARKER)
        = Except.ok [("1 2").data]
    ∧ (extract_block (START_MARKER ++ ('\n' :: '\n' :: ("1 2").data ++ ['\n', '\n']) ++ END_MARKER)
        = Except.ok (trimBlankEdges (splitNl
            (sliceStr (normalizeNewlines (START_MARKER ++
              ('\n' :: '\n' :: ("1 2").data ++ ['\n', '\n']) ++ END_MARKER))
              (0 + START_MARKER.length) (START_MARKER.length + 7))))
      ∧ TrimSpec (splitNl (sliceStr (normalizeNewlines (START_MARKER ++
            ('\n' :: '\n' :: ("1 2").data ++ ['\n', '\n']) ++ END_MARKER))
            (0 + START_MARKER.length) (START_MARKER.length + 7)))
          (trimBlankEdges (splitNl (sliceStr (normalizeNewlines (START_MARKER ++
            ('\n' :: '\n' :: ("1 2").data ++ ['\n', '\n']) ++ END_MARKER))
            (0 + START_MARKER.length) (START_MARKER.length + 7))))) :=
  ⟨by decide, by decide, by decide,
    extract_block_success_spec _ 0 (START_MARKER.length + 7) (by decide) (by decide)⟩

/-- C2: when the header marker occurs nowhere in the normalized document,
`extract_block` fails with the header-marker error; when it occurs but the
end marker occurs nowhere at or after the header marker's end offset,
`extract_block` fails with the end-marker error; in both cases no block is
returned. -/
theorem extract_block_failure_spec (doc : Str) :
    ((∀ k, matchesAt START_MARKER ((normalizeNewlines doc).drop k) = false) →
      extract_block doc = Except.error FormatError.headerNotFound)
    ∧ (∀ i, findSub START_MARKER (normalizeNewlines doc) = some i →
      (∀ k, i + START_MARKER.length ≤ k →
        matchesAt END_MARKER ((normalizeNewlines doc).drop k) = false) →
      extract_block doc = Except.error FormatError.endNotFound) := by
  constructor
  · intro h
    have h1 : findSub START_MARKER (normalizeNewlines doc) = none :=
      (findSub_eq_none_iff _ _).mpr h
    simp only [extract_block, extractFromText, h1]
  · intro i hi h
    have h2 : findSubFrom END_MARKER (normalizeNewlines doc) (i + START_MARKER.length) = none :=
      (findSubFrom_eq_none_iff _ _ _).mpr h
    simp only [extract_block, extractFromText, hi, h2]

/-- C2 witness: a marker-free document yields the header error, and a
document holding only the header marker yields the end-marker error. -/
theorem extract_block_failure_witness :
    extract_block ("no markers here").data = Except.error FormatError.headerNotFound
    ∧ extract_block (START_MARKER ++ ('\n' :: ("no end").data))
        = Except.error FormatError.endNotFound :=
  ⟨(extract_block_failure_spec _).1 ((findSub_eq_none_iff _ _).mp (by decide)),
    (extract_block_failure_spec _).2 0 (by decide)
      ((findSubFrom_eq_none_iff _ _ _).mp (by decide))⟩

/-! ### Line-ending invariance -/

theorem replaceCrlf_cons_ne (c : Char) (l : Str) (hc : c ≠ '\r') :
    replaceCrlf (c :: l) = c :: replaceCrlf l := by
  rw [replaceCrlf.eq_def]
  split <;> simp_all

theorem replaceCrlf_cr (l : Str) (h : l.head? ≠ some '\n') :
    replaceCrlf ('\r' :: l) = '\r' :: replaceCrlf l := by
  rcases l with _ | ⟨d, l'⟩
  · rfl
  · have hd : d ≠ '\n' := by intro h'; exact h (by rw [h']; rfl)
    rw [replaceCrlf.eq_def]
    split <;> simp_all
    rename_i heq
    exact heq.1.symm

theorem replaceCr_cons_ne (c : Char) (l : Str) (hc : c ≠ '\r') :
    replaceCr (c :: l) = c :: replaceCr l := by
  rw [replaceCr.eq_def]
  split <;> simp_all

theorem replaceCrlf_no_cr (s : Str) (h : ∀ c ∈ s, c ≠ '\r') : replaceCrlf s = s := by
  induction s with
  | nil => rfl
  | cons c rest ih =>
    rw [replaceCrlf_cons_ne c rest (h c (by simp)), ih (fun d hd => h d (by simp [hd]))]

theorem replaceCr_no_cr (s : Str) (h : ∀ c ∈ s, c ≠ '\r') : replaceCr s = s := by
  induction s with
  | nil => rfl
  | cons c rest ih =>
    rw [replaceCr_cons_ne c rest (h c (by simp)), ih (fun d hd => h d (by simp [hd]))]

theorem normalizeNewlines_no_cr (s : Str) (h : ∀ c ∈ s, c ≠ '\r') :
    normalizeNewlines s = s := by
  unfold normalizeNewlines
  rw [replaceCrlf_no_cr s h, replaceCr_no_cr s h]

theorem replaceCrlf_no_nl (s : Str) (h : ∀ c ∈ s, c ≠ '\n') : replaceCrlf s = s := by
  induction s with
  | nil => rfl
  | cons c rest ih =>
    have hrest : ∀ d ∈ rest, d ≠ '\n' := fun d hd => h d (by simp [hd])
    by_cases hc : c = '\r'
    · subst hc
      have hh : rest.head? ≠ some '\n' := by
        rcases rest with _ | ⟨d, l'⟩
        · simp
        · simpa using hrest d (by simp)
      rw [replaceCrlf_cr rest hh, ih hrest]
    · rw [replaceCrlf_cons_ne c rest hc, ih hrest]

theorem encodeNl_lf (s : Str) : encodeNl ['\n'] s = s := by
  induction s with
  | nil => rfl
  | cons c rest ih =>
    by_cases hc : c = '\n' <;> simp [encodeNl, hc, ih]

theorem encodeCrlf_replace (s : Str) (h : ∀ c ∈ s, c ≠ '\r') :
    replaceCrlf (encodeNl ['\r', '\n'] s) = s := by
  induction s with
  | nil => rfl
  | cons c rest ih =>
    have hrest : ∀ d ∈ rest, d ≠ '\r' := fun d hd => h d (by simp [hd])
    by_cases hc : c = '\n'
    · subst hc
      have he : encodeNl ['\r', '\n'] ('\n' :: rest) =
          '\r' :: '\n' :: encodeNl ['\r', '\n'] rest := by
        simp [encodeNl]
      rw [he, show replaceCrlf ('\r' :: '\n' :: encodeNl ['\r', '\n'] rest)
          = '\n' :: replaceCrlf (encodeNl ['\r', '\n'] rest) from rfl, ih hrest]
    · have he : encodeNl ['\r', '\n'] (c :: rest) = c :: encodeNl ['\r', '\n'] rest := by
        simp [encodeNl, hc]
      rw [he, replaceCrlf_cons_ne c _ (h c (by simp)), ih hrest]

theorem mem_encodeCr_ne_nl (s : Str) : ∀ c ∈ encodeNl ['\r'] s, c ≠ '\n' := by
  induction s with
  | nil => intro c hc; simp [encodeNl] at hc
  | cons c rest ih =>
    intro d hd
    by_cases hc : c = '\n'
    · subst hc
      have : encodeNl ['\r'] ('\n' :: rest) = '\r' :: encodeNl ['\r'] rest := by
        simp [encodeNl]
      rw [this] at hd
      rcases List.mem_cons.mp hd with rfl | hd
      · simp
      · exact ih d hd
    · have : encodeNl ['\r'] (c :: rest) = c :: encodeNl ['\r'] rest := by
        simp [encodeNl, hc]
      rw [this] at hd
      rcases List.mem_cons.mp hd with rfl | hd
      · exact hc
      · exact ih d hd

theorem encodeCr_replace (s : Str) (h : ∀ c ∈ s, c ≠ '\r') :
    replaceCr (encodeNl ['\r'] s) = s := by
  induction s with
  | nil => rfl
  | cons c rest ih =>
    have hrest : ∀ d ∈ rest, d ≠ '\r' := fun d hd => h d (by simp [hd])
    by_cases hc : c = '\n'
    · subst hc
      have he : encodeNl ['\r'] ('\n' :: rest) = '\r' :: encodeNl ['\r'] rest := by
        simp [encodeNl]
      rw [he, show replaceCr ('\r' :: encodeNl ['\r'] rest)
          = '\n' :: replaceCr (encodeNl ['\r'] rest) from rfl, ih hrest]
    · have he : encodeNl ['\r'] (c :: rest) = c :: encodeNl ['\r'] rest := by
        simp [encodeNl, hc]
      rw [he, replaceCr_cons_ne c _ (h c (by simp)), ih hrest]

/-- C6: line-ending normalization happens before marker search, so a
CR-free LF-normal document yields the same extraction result however its
newlines are encoded: CR LF, bare CR, or LF itself. -/
theorem extract_block_newline_invariant (doc : Str) (h : ∀ c ∈ doc, c ≠ '\r') :
    extract_block (encodeNl ['\r', '\n'] doc) = extract_block doc
    ∧ extract_block (encodeNl ['\r'] doc) = extract_block doc
    ∧ extract_block (encodeNl ['\n'] doc) = extract_block doc := by
  have hdoc : normalizeNewlines doc = doc := normalizeNewlines_no_cr doc h
  have h1 : normalizeNewlines (encodeNl ['\r', '\n'] doc) = doc := by
    unfold normalizeNewlines
    rw [encodeCrlf_replace doc h, replaceCr_no_cr doc h]
  have h2 : normalizeNewlines (encodeNl ['\r'] doc) = doc := by
    unfold normalizeNewlines
    rw [replaceCrlf_no_nl _ (mem_encodeCr_ne_nl doc), encodeCr_replace doc h]
  have h3 : normalizeNewlines (encodeNl ['\n'] doc) = doc := by
    rw [encodeNl_lf, hdoc]
  unfold extract_block
  rw [h1, h2, h3, hdoc]
  exact ⟨rfl, rfl, rfl⟩

/-- C6 witness: on a concrete CR-free document all three encodings extract
the same single data line. -/
theorem extract_block_newline_invariant_witness :
    (∀ c ∈ START_MARKER ++ ('\n' :: ("1 2").data ++ ['\n']) ++ END_MARKER, c ≠ '\r')
    ∧ extract_block (encodeNl ['\r', '\n']
        (START_MARKER ++ ('\n' :: ("1 2").data ++ ['\n']) ++ END_MARKER))
        = Except.ok [("1 2").data]
    ∧ (extract_block (encodeNl ['\r', '\n']
          (START_MARKER ++ ('\n' :: ("1 2").data ++ ['\n']) ++ END_MARKER))
        = extract_block (START_MARKER ++ ('\n' :: ("1 2").data ++ ['\n']) ++ END_MARKER)
      ∧ extract_block (encodeNl ['\r']
          (START_MARKER ++ ('\n' :: ("1 2").data ++ ['\n']) ++ END_MARKER))
        = extract_block (START_MARKER ++ ('\n' :: ("1 2").data ++ ['\n']) ++ END_MARKER)
      ∧ extract_block (encodeNl ['\n']
          (START_MARKER ++ ('\n' :: ("1 2").data ++ ['\n']) ++ END_MARKER))
        = extract_block (START_MARKER ++ ('\n' :: ("1 2").data ++ ['\n']) ++ END_MARKER)) :=
  ⟨by decide, by decide, extract_block_newline_invariant _ (by decide)⟩

theorem parseStep_eq (acc : List PyFloat × List PyFloat × List PyFloat) (line : Str) :
    parseStep acc line =
      match lineTriple? line with
      | some (p, z, T) => (acc.1 ++ [p], acc.2.1 ++ [z], acc.2.2 ++ [T])
      | none => acc := by
  unfold parseStep lineTriple?
  by_cases hs : pyStrip line = ([] : Str)
  · rw [if_pos hs, hs]
    simp [pySplit, pySplitAux]
  · rw [if_neg hs]
    generalize pySplit (pyStrip line) = parts
    rcases parts with _ | ⟨p0, _ | ⟨p1, _ | ⟨p2, rest⟩⟩⟩
    · simp
    · simp
    · simp
    · rw [if_neg (by simp only [List.length_cons]; omega)]
      rcases h0 : pyFloat? p0 with _ | p
      · simp [h0]
      · rcases h1 : pyFloat? p1 with _ | z
        · simp [h0, h1]
        · rcases h2 : pyFloat? p2 with _ | T
          · simp [h0, h1, h2]
          · simp [h0, h1, h2]

theorem parse_profiles_fold (lines : List Str) :
    ∀ acc : List PyFloat × List PyFloat × List PyFloat,
      lines.foldl parseStep acc =
        (acc.1 ++ (lines.filterMap lineTriple?).map (fun t => t.1),
         acc.2.1 ++ (lines.filterMap lineTriple?).map (fun t => t.2.1),
         acc.2.2 ++ (lines.filterMap lineTriple?).map (fun t => t.2.2)) := by
  induction lines with
  | nil => intro acc; simp
  | cons l ls ih =>
    intro acc
    rw [List.foldl_cons, parseStep_eq]
    rcases ht : lineTriple? l with _ | ⟨p, z, T⟩
    · simp only [ht]
      rw [ih]
      simp [ht]
    · simp only [ht]
      rw [ih]
      simp [ht]

/-- C4: `parse_profiles` appends exactly one (pressure, altitude,
temperature) triple per line whose first three whitespace-delimited tokens
all convert, in original line order; a line with fewer than three tokens or
any failing conversion contributes nothing to any sequence; the three
sequences always have equal length. -/
theorem parse_profiles_spec (lines : List Str) :
    parse_profiles lines =
      ((lines.filterMap lineTriple?).map (fun t => t.1),
       (lines.filterMap lineTriple?).map (fun t => t.2.1),
       (lines.filterMap lineTriple?).map (fun t => t.2.2))
    ∧ (parse_profiles lines).1.length = (parse_profiles lines).2.1.length
    ∧ (parse_profiles lines).2.1.length = (parse_profiles lines).2.2.length := by
  have h := parse_profiles_fold lines ([], [], [])
  unfold parse_profiles
  rw [h]
  simp

/-! ### Idempotence of the normalizer on its own output -/

theorem pySplitAux_tokens :
    ∀ (s acc : Str), (∀ c ∈ acc, isWS c = false) →
      ∀ t ∈ pySplitAux acc s, t ≠ ([] : Str) ∧ ∀ c ∈ t, isWS c = false := by
  intro s
  induction s with
  | nil =>
    intro acc hacc t ht
    by_cases h : acc = ([] : Str)
    · subst h
      simp [pySplitAux] at ht
    · simp only [pySplitAux, if_neg h, List.mem_singleton] at ht
      subst ht
      refine ⟨by simpa using h, fun c hc => hacc c (by simpa using hc)⟩
  | cons c rest ih =>
    intro acc hacc t ht
    by_cases hc : isWS c = true
    · by_cases h : acc = ([] : Str)
      · subst h
        simp only [pySplitAux, hc, if_pos rfl, if_true] at ht
        exact ih [] (by simp) t ht
      · simp only [pySplitAux, hc, if_true, if_neg h, List.mem_cons] at ht
        rcases ht with rfl | ht
        · refine ⟨by simpa using h, fun d hd => hacc d (by simpa using hd)⟩
        · exact ih [] (by simp) t ht
    · have hc' : isWS c = false := by simpa using hc
      simp only [pySplitAux, hc', Bool.false_eq_true, if_false] at ht
      refine ih (c :: acc) ?_ t ht
      intro d hd
      rcases List.mem_cons.mp hd with rfl | hd
      · exact hc'
      · exact hacc d hd

theorem pySplitAux_no_ws :
    ∀ s : Str, (∀ c ∈ s, isWS c = false) →
      ∀ acc : Str, pySplitAux acc s =
        if acc.reverse ++ s = ([] : Str) then [] else [acc.reverse ++ s] := by
  intro s
  induction s with
  | nil =>
    intro _ acc
    by_cases h : acc = ([] : Str)
    · subst h; simp [pySplitAux]
    · rw [List.append_nil, if_neg (by simpa using h)]
      simp [pySplitAux, h]
  | cons c s' ih =>
    intro hs acc
    have hc : isWS c = false := hs c (by simp)
    have hs' : ∀ d ∈ s', isWS d = false := fun d hd => hs d (by simp [hd])
    rw [show pySplitAux acc (c :: s') = pySplitAux (c :: acc) s' by
      simp [pySplitAux, hc]]
    rw [ih hs' (c :: acc)]
    rw [List.reverse_cons, List.append_assoc, List.singleton_append]

theorem pySplit_no_ws (s : Str) (hne : s ≠ ([] : Str)) (hs : ∀ c ∈ s, isWS c = false) :
    pySplit s = [s] := by
  unfold pySplit
  rw [pySplitAux_no_ws s hs []]
  simp [hne]

theorem pySplitAux_token_prepend :
    ∀ t : Str, (∀ c ∈ t, isWS c = false) →
      ∀ (s acc : Str), pySplitAux acc (t ++ s) = pySplitAux (t.reverse ++ acc) s := by
  intro t
  induction t with
  | nil => intro _ s acc; simp
  | cons c t' ih =>
    intro ht s acc
    have hc : isWS c = false := ht c (by simp)
    have ht' : ∀ d ∈ t', isWS d = false := fun d hd => ht d (by simp [hd])
    rw [List.cons_append]
    rw [show pySplitAux acc (c :: (t' ++ s)) = pySplitAux (c :: acc) (t' ++ s) by
      simp [pySplitAux, hc]]
    rw [ih ht' s (c :: acc)]
    conv_rhs => rw [List.reverse_cons, List.append_assoc, List.singleton_append]

theorem pySplit_join_ws (w : Char) (hw : isWS w = true) :
    ∀ ts : List Str,
      (∀ t ∈ ts, t ≠ ([] : Str) ∧ ∀ c ∈ t, isWS c = false) →
      pySplit (pyJoin [w] ts) = ts := by
  intro ts
  induction ts with
  | nil => intro _; rfl
  | cons t rest ih =>
    intro hts
    obtain ⟨htne, htws⟩ := hts t (by simp)
    have hrest : ∀ u ∈ rest, u ≠ ([] : Str) ∧ ∀ c ∈ u, isWS c = false :=
      fun u hu => hts u (by simp [hu])
    rcases rest with _ | ⟨t2, rest'⟩
    · rw [show pyJoin [w] [t] = t from rfl]
      exact pySplit_no_ws t htne htws
    · rw [show pyJoin [w] (t :: t2 :: rest') = t ++ [w] ++ pyJoin [w] (t2 :: rest') from rfl]
      unfold pySplit
      rw [List.append_assoc, pySplitAux_token_prepend t htws _ [], List.append_nil,
        List.singleton_append]
      have hne : t.reverse ≠ ([] : Str) := by simpa using htne
      rw [show pySplitAux t.reverse (w :: pyJoin [w] (t2 :: rest'))
          = t.reverse.reverse :: pySplitAux [] (pyJoin [w] (t2 :: rest')) by
        simp [pySplitAux, hw, hne]]
      rw [List.reverse_reverse,
        show pySplitAux ([] : Str) (pyJoin [w] (t2 :: rest'))
          = pySplit (pyJoin [w] (t2 :: rest')) from rfl,
        ih hrest]

theorem splitNl_append_no_nl :
    ∀ a : Str, (∀ c ∈ a, c ≠ '\n') → ∀ r : Str,
      splitNl (a ++ '\n' :: r) = a :: splitNl r := by
  intro a
  induction a with
  | nil => intro _ r; simp [splitNl]
  | cons c a' ih =>
    intro ha r
    have hc : c ≠ '\n' := ha c (by simp)
    have ha' : ∀ d ∈ a', d ≠ '\n' := fun d hd => ha d (by simp [hd])
    rw [List.cons_append]
    simp only [splitNl]
    rw [if_neg hc, ih ha' r]

theorem splitNl_join :
    ∀ out : List Str, (∀ o ∈ out, ∀ c ∈ o, c ≠ '\n') → out ≠ [] →
      splitNl (pyJoin ['\n'] out ++ ['\n']) = out ++ [[]] := by
  intro out
  induction out with
  | nil => intro _ hne; cases hne rfl
  | cons o rest ih =>
    intro hnl _
    have ho : ∀ c ∈ o, c ≠ '\n' := hnl o (by simp)
    rcases rest with _ | ⟨o2, rest'⟩
    · rw [show pyJoin ['\n'] [o] = o from rfl,
        show (o ++ ['\n'] : Str) = o ++ '\n' :: [] from rfl,
        splitNl_append_no_nl o ho []]
      rfl
    · have hrest : ∀ u ∈ (o2 :: rest'), ∀ c ∈ u, c ≠ '\n' :=
        fun u hu => hnl u (by simp [hu])
      rw [show pyJoin ['\n'] (o :: o2 :: rest')
          = o ++ ['\n'] ++ pyJoin ['\n'] (o2 :: rest') from rfl]
      rw [List.append_assoc, List.append_assoc, List.singleton_append]
      rw [splitNl_append_no_nl o ho _]
      rw [ih hrest (by simp)]
      rfl

theorem mem_pyJoin {c : Char} (sep : Str) :
    ∀ ts : List Str, c ∈ pyJoin sep ts → c ∈ sep ∨ ∃ t ∈ ts, c ∈ t := by
  intro ts
  induction ts with
  | nil => intro h; simp [pyJoin] at h
  | cons t rest ih =>
    intro h
    rcases rest with _ | ⟨t2, rest'⟩
    · right; exact ⟨t, by simp, by simpa [pyJoin] using h⟩
    · rw [show pyJoin sep (t :: t2 :: rest') = t ++ sep ++ pyJoin sep (t2 :: rest') from rfl] at h
      rcases List.mem_append.mp h with h1 | h1
      · rcases List.mem_append.mp h1 with h2 | h2
        · right; exact ⟨t, by simp, h2⟩
        · left; exact h2
      · rcases ih h1 with h2 | ⟨u, hu, hcu⟩
        · left; exact h2
        · right; exact ⟨u, by simp [hu], hcu⟩

theorem mem_pyJoin_head {c : Char} (sep t : Str) (rest : List Str) (hc : c ∈ t) :
    c ∈ pyJoin sep (t :: rest) := by
  rcases rest with _ | ⟨t2, rest'⟩
  · simpa [pyJoin] using hc
  · rw [show pyJoin sep (t :: t2 :: rest') = t ++ sep ++ pyJoin sep (t2 :: rest') from rfl]
    exact List.mem_append.mpr (Or.inl (List.mem_append.mpr (Or.inl hc)))

theorem mem_pyJoin_token {c : Char} (sep : Str) :
    ∀ (ts : List Str) (t : Str), t ∈ ts → c ∈ t → c ∈ pyJoin sep ts := by
  intro ts
  induction ts with
  | nil => intro t ht _; cases ht
  | cons u rest ih =>
    intro t ht hc
    rcases List.mem_cons.mp ht with rfl | ht
    · exact mem_pyJoin_head sep t rest hc
    · rcases rest with _ | ⟨t2, rest'⟩
      · cases ht
      · rw [show pyJoin sep (u :: t2 :: rest') = u ++ sep ++ pyJoin sep (t2 :: rest') from rfl]
        exact List.mem_append.mpr (Or.inr (ih t ht hc))

theorem dropWhile_all_false {α : Type} (p : α → Bool) :
    ∀ l : List α, (∀ c ∈ l, p c = false) → l.dropWhile p = l := by
  intro l
  induction l with
  | nil => intro _; rfl
  | cons c l' _ =>
    intro h
    rw [List.dropWhile_cons, if_neg (by simp [h c (by simp)])]

theorem rstripNl_no_nl (o : Str) (h : ∀ c ∈ o, c ≠ '\n') : rstripNl o = o := by
  unfold rstripNl
  rw [dropWhile_all_false _ o.reverse
    (fun c hc => by simpa using h c (List.mem_reverse.mp hc)), List.reverse_reverse]

theorem filterMap_some_self {α : Type} (f : α → Option α) :
    ∀ l : List α, (∀ a ∈ l, f a = some a) → l.filterMap f = l := by
  intro l
  induction l with
  | nil => intro _; rfl
  | cons a l' ih =>
    intro h
    rw [List.filterMap_cons, h a (by simp), ih (fun b hb => h b (by simp [hb]))]

theorem normLineOut_good (sep line o : Str) (h : normLineOut sep line = some o) :
    ∃ ts, ts ≠ ([] : List Str)
      ∧ (∀ t ∈ ts, t ≠ ([] : Str) ∧ ∀ c ∈ t, isWS c = false)
      ∧ o = pyJoin sep ts := by
  unfold normLineOut at h
  by_cases hb : isBlankLine (rstripNl line) = true
  · rw [if_pos hb] at h; cases h
  · rw [if_neg hb] at h
    have ho : pyJoin sep (pySplit (rstripNl line)) = o := Option.some.inj h
    refine ⟨pySplit (rstripNl line), ?_, ?_, ho.symm⟩
    · intro hnil
      exact hb ((isBlankLine_iff_split_nil _).mpr hnil)
    · exact pySplitAux_tokens (rstripNl line) [] (by simp)

theorem normLineOut_fixed (sep : Str) (hsep : sep = [','] ∨ sep = ['\t']) (o : Str)
    (hts : ∃ ts, ts ≠ ([] : List Str)
      ∧ (∀ t ∈ ts, t ≠ ([] : Str) ∧ ∀ c ∈ t, isWS c = false)
      ∧ o = pyJoin sep ts) :
    normLineOut sep o = some o := by
  obtain ⟨ts, htsne, htok, ho⟩ := hts
  have hsep_no_nl : ∀ c ∈ sep, c ≠ '\n' := by
    rcases hsep with h | h <;> subst h <;> decide
  have ho_no_nl : ∀ c ∈ o, c ≠ '\n' := by
    intro c hc
    rcases mem_pyJoin sep ts (ho ▸ hc) with h1 | ⟨t, ht, hct⟩
    · exact hsep_no_nl c h1
    · intro h'
      subst h'
      have := (htok t ht).2 '\n' hct
      simp [isWS] at this
  have hr : rstripNl o = o := rstripNl_no_nl o ho_no_nl
  obtain ⟨t0, ht0⟩ := List.exists_mem_of_ne_nil ts htsne
  obtain ⟨ht0ne, ht0ws⟩ := htok t0 ht0
  obtain ⟨c0, hc0⟩ := List.exists_mem_of_ne_nil t0 ht0ne
  have hc0o : c0 ∈ o := by
    rw [ho]
    exact mem_pyJoin_token sep ts t0 ht0 hc0
  have hblank : isBlankLine o = false := by
    rw [Bool.eq_false_iff]
    intro hbt
    have hws := (isBlankLine_iff_all_ws o).mp hbt c0 hc0o
    rw [ht0ws c0 hc0] at hws
    cases hws
  unfold normLineOut
  rw [hr, if_neg (by simp [hblank])]
  rcases hsep with h | h
  · subst h
    have hall : ∀ c ∈ o, isWS c = false := by
      intro c hc
      rcases mem_pyJoin [','] ts (ho ▸ hc) with h1 | ⟨t, ht, hct⟩
      · rw [show c = ',' by simpa using h1]
        decide
      · exact (htok t ht).2 c hct
    have hone : o ≠ ([] : Str) := List.ne_nil_of_mem hc0o
    rw [pySplit_no_ws o hone hall]
    rfl
  · subst h
    rw [ho, pySplit_join_ws '\t' (by decide) ts htok]

/-- C5: for both accepted separators (comma and tab), normalizing the lines
of an already-normalized text with the same separator reproduces that text
exactly. -/
theorem normalize_lines_idempotent (lines : List Str) (sep : Str)
    (hsep : sep = [','] ∨ sep = ['\t']) :
    normalize_lines (splitNl (normalize_lines lines sep)) sep
      = normalize_lines lines sep := by
  unfold normalize_lines
  generalize hO : List.filterMap (normLineOut sep) lines = out
  have hgood : ∀ o ∈ out, ∃ ts, ts ≠ ([] : List Str)
      ∧ (∀ t ∈ ts, t ≠ ([] : Str) ∧ ∀ c ∈ t, isWS c = false)
      ∧ o = pyJoin sep ts := by
    intro o hoo
    rw [← hO, List.mem_filterMap] at hoo
    obtain ⟨line, _, hf⟩ := hoo
    exact normLineOut_good sep line o hf
  have hfix : ∀ o ∈ out, normLineOut sep o = some o :=
    fun o hoo => normLineOut_fixed sep hsep o (hgood o hoo)
  have hno_nl : ∀ o ∈ out, ∀ c ∈ o, c ≠ '\n' := by
    intro o hoo c hc
    obtain ⟨ts, _, htok, ho⟩ := hgood o hoo
    have hsep_no_nl : ∀ d ∈ sep, d ≠ '\n' := by
      rcases hsep with h | h <;> subst h <;> decide
    rcases mem_pyJoin sep ts (ho ▸ hc) with h1 | ⟨t, ht, hct⟩
    · exact hsep_no_nl c h1
    · intro h'
      subst h'
      have := (htok t ht).2 '\n' hct
      simp [isWS] at this
  rcases out with _ | ⟨o1, out'⟩
  · rfl
  · have hsplit : splitNl (pyJoin ['\n'] (o1 :: out') ++ ['\n'])
        = (o1 :: out') ++ [[]] :=
      splitNl_join (o1 :: out') hno_nl (by simp)
    rw [hsplit, List.filterMap_append,
      show List.filterMap (normLineOut sep) [[]] = ([] : List Str) from rfl,
      List.append_nil,
      filterMap_some_self (normLineOut sep) (o1 :: out') hfix]

/-- C5 witness: concrete round trips for the comma and the tab separator. -/
theorem normalize_lines_idempotent_witness :
    (([','] : Str) = [','] ∨ ([','] : Str) = ['\t'])
    ∧ normalize_lines [("  1000.0   100.0  15.2 ").data, ([] : Str)] [',']
        = ("1000.0,100.0,15.2\n").data
    ∧ normalize_lines
        (splitNl (normalize_lines [("  1000.0   100.0  15.2 ").data, ([] : Str)] [','])) [',']
        = normalize_lines [("  1000.0   100.0  15.2 ").data, ([] : Str)] [',']
    ∧ normalize_lines
        (splitNl (normalize_lines [("a  b").data] ['\t'])) ['\t']
        = normalize_lines [("a  b").data] ['\t'] :=
  ⟨Or.inl rfl, by decide,
    normalize_lines_idempotent _ _ (Or.inl rfl),
    normalize_lines_idempotent _ _ (Or.inr rfl)⟩

/-- C10 witness: both hypothetical parts hold at a concrete all-blank input. -/
theorem normalize_lines_all_blank_witness :
    (∀ l ∈ [("  ").data, ([] : Str)], isBlankLine l = true)
    ∧ normalize_lines [("  ").data, ([] : Str)] [','] = ['\n'] :=
  ⟨by decide, (normalize_lines_all_blank [("  ").data, ([] : Str)] [',']).1 (by decide)⟩

/-- C8 fails on the code as stated: with no heading element in the document,
the resolver still pushes the station id through the sanitizer, so a station
id containing a space comes back altered. -/
theorem extract_station_name_no_heading_counterexample :
    findSub ("<H2>").data ("plain text document").data = none
    ∧ findSub ("<h2>").data ("plain text document").data = none
    ∧ extract_station_name ("plain text document").data ("a b").data ≠ ("a b").data :=
  ⟨by decide, by decide, by decide⟩

/-- C8 amended: for every document in which neither `<H2>` nor `<h2>` occurs,
the resolver returns the station id passed through the sanitization step
(runs of disallowed characters collapsed to one underscore, edge underscores
trimmed, with the raw station id as fallback when that result is empty); in
particular the station id is returned unchanged whenever it consists only of
letters, digits, hyphens and interior underscores. -/
theorem extract_station_name_no_heading (doc id : Str)
    (h1 : findSub ("<H2>").data doc = none)
    (h2 : findSub ("<h2>").data doc = none) :
    extract_station_name doc id = sanitizeName id id := by
  simp only [extract_station_name, h1, h2]

/-- C8 witness: the amended statement holds at a concrete heading-free
document. -/
theorem extract_station_name_no_heading_witness :
    findSub ("<H2>").data ("plain text").data = none
    ∧ findSub ("<h2>").data ("plain text").data = none
    ∧ extract_station_name ("plain text").data ("a b").data
        = sanitizeName ("a b").data ("a b").data :=
  ⟨by decide, by decide, extract_station_name_no_heading _ _ (by decide) (by decide)⟩

/-- C9: when a heading is found (via `<H2>`, or via `<h2>` when `<H2>` is
absent) and its decoded trimmed inner text has fewer than three
whitespace-delimited tokens, the resolver returns the sanitized full heading
text, falling back to the station id only when sanitization leaves the empty
string. -/
theorem extract_station_name_short_heading (doc id : Str) (i e : Nat) :
    (findSub ("<H2>").data doc = some i →
      findSubFrom ("</H2>").data doc (i + 4) = some e →
      (pySplit (pyStrip (htmlUnescape (sliceStr doc (i + 4) e)))).length < 3 →
      extract_station_name doc id
        = sanitizeName (pyStrip (htmlUnescape (sliceStr doc (i + 4) e))) id)
    ∧ (findSub ("<H2>").data doc = none →
      findSub ("<h2>").data doc = some i →
      findSubFrom ("</h2>").data doc (i + 4) = some e →
      (pySplit (pyStrip (htmlUnescape (sliceStr doc (i + 4) e)))).length < 3 →
      extract_station_name doc id
        = sanitizeName (pyStrip (htmlUnescape (sliceStr doc (i + 4) e))) id) := by
  have hn : (pySplit (pyStrip (htmlUnescape (sliceStr doc (i + 4) e)))).length < 3 →
      nameFromHeading (sliceStr doc (i + 4) e)
        = pyStrip (htmlUnescape (sliceStr doc (i + 4) e)) := by
    intro h3
    simp only [nameFromHeading]
    rw [if_neg (by omega)]
  constructor
  · intro h1 h2 h3
    simp only [extract_station_name, h1, h2, hn h3]
  · intro h0 h1 h2 h3
    simp only [extract_station_name, h0, h1, h2, hn h3]

/-- C9 witness: a concrete two-token heading `X Y` resolves to the sanitized
heading text `X_Y`, not to the station id. -/
theorem extract_station_name_short_heading_witness :
    findSub ("<H2>").data ("<H2>X Y</H2>").data = some 0
    ∧ findSubFrom ("</H2>").data ("<H2>X Y</H2>").data (0 + 4) = some 7
    ∧ (pySplit (pyStrip (htmlUnescape (sliceStr ("<H2>X Y</H2>").data (0 + 4) 7)))).length < 3
    ∧ extract_station_name ("<H2>X Y</H2>").data ("77").data
        = sanitizeName (pyStrip (htmlUnescape (sliceStr ("<H2>X Y</H2>").data (0 + 4) 7))) ("77").data :=
  ⟨by decide, by decide, by decide,
    (extract_station_name_short_heading _ _ 0 7).1 (by decide) (by decide) (by decide)⟩

/-- C7: on the heading `15420 LRBS Bucuresti Inmh-Banesa Observations at 00Z
02 Nov 2025`, the resolver drops the first two tokens, stops before the
literal token `Observations`, joins with underscores and yields
`Bucuresti_Inmh-Banesa`. -/
theorem extract_station_name_bucuresti :
    extract_station_name
      ("<H2>15420 LRBS Bucuresti Inmh-Banesa Observations at 00Z 02 Nov 2025</H2>").data
      ("15420").data
      = ("Bucuresti_Inmh-Banesa").data := by
  decide
